import Mathlib

/-!
Verification of the translation-resolution core of the `svelte5-i18n`
library (`src/lib/i18n.ts`, current version of the module, plus the
session-state functions `registerLocale`, `loadLocale`, `setLocale`).

JavaScript objects are embedded as association lists with unique keys
(`assocFind` is property lookup).  Asynchronous loader behaviour is made
explicit: each registered loader is an environment-supplied
`LoaderBehavior` saying whether its promise fulfils (and with which data)
or rejects, and a promise-returning function is embedded as a function
into `Except`, where `Except.error` models a rejected promise.
-/

set_option maxHeartbeats 1000000

/-- `TranslationRecord` from the source: a nested mapping whose leaves are
strings.  A JS object literal becomes a `node` with an association list of
children (keys unique, as in JS objects). -/
inductive TranslationRecord where
  | leaf (s : String)
  | node (children : List (String × TranslationRecord))

/-- Property lookup on a JS object embedded as an association list
(`k in obj` followed by `obj[k]`). -/
def assocFind {α : Type} : List (String × α) → String → Option α
  | [], _ => none
  | (k, v) :: rest, key => if k = key then some v else assocFind rest key

/-- The JS object update `{...m, [k]: v}`: overrides the entry for `k` if
present, otherwise appends it.  Keys of an object are unique. -/
def setEntry {α : Type} : List (String × α) → String → α → List (String × α)
  | [], k, v => [(k, v)]
  | (k', v') :: rest, k, v =>
    if k' = k then (k, v) :: rest else (k', v') :: setEntry rest k v

/-- `Translations` from the source: locale code → translation tree. -/
abbrev Translations := List (String × TranslationRecord)

/-- The key-path traversal loop of `getTranslate` (src/lib/i18n.ts:523-530):
for each segment, if the current node is an object containing the segment,
descend; otherwise the traversal fails.  A leaf reached with segments left
is not an object, so traversal fails there too. -/
def descend : TranslationRecord → List String → Option TranslationRecord
  | t, [] => some t
  | TranslationRecord.leaf _, _ :: _ => none
  | TranslationRecord.node cs, k :: ks =>
    match assocFind cs k with
    | some t => descend t ks
    | none => none

/-- A parameter value, `string | number` in the source.  `render` is
JS `String(paramValue)`; the numeric fragment modelled here is the
integers, whose default decimal rendering agrees with `Int.toString`. -/
inductive ParamValue where
  | str (s : String)
  | num (n : Int)

def ParamValue.render : ParamValue → String
  | .str s => s
  | .num n => toString n

/-- One character of the compiled pattern `new RegExp("{" ++ key ++ "}")`:
a literal character or the `.` wildcard (matches any single character).
The source builds the regex from the raw parameter key without escaping,
so `.` in a key is a wildcard.  Keys containing other JS-regex
metacharacters (`\ ^ $ | ? * + ( ) [ ] { }`) are outside the modelled
fragment; every theorem about interpolation restricts parameter keys to
`plainChar` characters (plus the explicit `.`-wildcard counterexample). -/
inductive PatChar where
  | lit (c : Char)
  | any

def patCharMatches : PatChar → Char → Bool
  | .any, _ => true
  | .lit l, c => l == c

/-- Match a fixed-length pattern against a prefix of the input, returning
the matched characters and the rest. -/
def matchPrefix : List PatChar → List Char → Option (List Char × List Char)
  | [], cs => some ([], cs)
  | _ :: _, [] => none
  | p :: ps, c :: cs =>
    if patCharMatches p c then
      match matchPrefix ps cs with
      | some (m, rest) => some (c :: m, rest)
      | none => none
    else none

theorem matchPrefix_some_structure :
    ∀ (ps : List PatChar) (cs m rest : List Char),
      matchPrefix ps cs = some (m, rest) →
      cs = m ++ rest ∧ m.length = ps.length := by
  intro ps
  induction ps with
  | nil =>
    intro cs m rest h
    simp [matchPrefix] at h
    simp [h.1, h.2]
  | cons p ps ih =>
    intro cs m rest h
    cases cs with
    | nil => simp [matchPrefix] at h
    | cons c cs =>
      simp only [matchPrefix] at h
      split at h
      · cases hm : matchPrefix ps cs with
        | none => rw [hm] at h; simp at h
        | some pr =>
          rw [hm] at h
          obtain ⟨m', rest'⟩ := pr
          simp at h
          obtain ⟨hm1, hrest⟩ := h
          have := ih cs m' rest' hm
          subst hm1
          subst hrest
          simp [this.1, this.2]
      · simp at h

/-- JS `GetSubstitution` for the replacement string, restricted to the
substitutions the source can produce: `$$` yields a literal `$`, `$&`
yields the matched text, any other character (including a `$` followed by
an unrecognized character, or a trailing `$`) is copied verbatim.  The
pattern has no capture groups, so `$n`, and the context forms `$`-backquote
and `$`-quote, are outside the modelled fragment; theorems about values
containing `$` are restricted accordingly. -/
def expandRepl (m : List Char) : List Char → List Char
  | [] => []
  | [c] => [c]
  | c :: d :: rest =>
    if c = '$' then
      if d = '$' then '$' :: expandRepl m rest
      else if d = '&' then m ++ expandRepl m rest
      else c :: d :: expandRepl m rest
    else c :: expandRepl m (d :: rest)

/-- Global regex replacement, `str.replace(re, repl)` with the `g` flag:
scan left to right; at each position, if the pattern matches, emit the
expanded replacement and continue after the match, otherwise emit the
character.  The pattern is nonempty (`p0` is its head), so a match
consumes exactly `ps.length + 1` characters, and the scan resumes at
`cs.drop ps.length` (equal to the rest returned by `matchPrefix`, by
`matchPrefix_some_structure`).  The scan is written with an explicit fuel
so that it is structurally recursive (and therefore computes by kernel
reduction); each step consumes at least one character, so fuel
`s.length` suffices and the `0, s => s` clause is never reached from the
wrapper `replaceAllRx`. -/
def replaceAllRxF (p0 : PatChar) (ps : List PatChar) (repl : List Char) :
    Nat → List Char → List Char
  | _, [] => []
  | 0, s => s
  | fuel + 1, c :: cs =>
    match matchPrefix (p0 :: ps) (c :: cs) with
    | some (m, _) =>
      expandRepl m repl ++ replaceAllRxF p0 ps repl fuel (cs.drop ps.length)
    | none => c :: replaceAllRxF p0 ps repl fuel cs

/-- `str.replace(re, repl)` with the `g` flag: see `replaceAllRxF`. -/
def replaceAllRx (p0 : PatChar) (ps : List PatChar) (repl : List Char)
    (s : List Char) : List Char :=
  replaceAllRxF p0 ps repl s.length s

def compileChar (c : Char) : PatChar :=
  if c = '.' then PatChar.any else PatChar.lit c

/-- Replace every occurrence of `{paramKey}` in `str` by the rendered
value, as the source does it:
`str.replace(new RegExp("{" + paramKey + "}", "g"), String(paramValue))`
(src/lib/i18n.ts:539-541) — for the keys on which that `RegExp`
construction succeeds.  When `"{" + paramKey + "}"` parses as a braced
quantifier (`paramKey` of the shape digits, digits`,`, or
digits`,`digits), `new RegExp` throws a SyntaxError (Annex B invalid
braced quantifier, nothing to repeat) before any replacement happens;
that error path is modelled by `applyParamChecked` below, and the
interpolation theorem stays on the non-throwing fragment via
`regexSafeKey`. -/
def applyParam (str : String) (paramKey : String) (v : ParamValue) : String :=
  String.mk (replaceAllRx (PatChar.lit '{')
    (paramKey.toList.map compileChar ++ [PatChar.lit '}'])
    v.render.toList str.toList)

/-- The `Object.entries(params).reduce(...)` fold of `getTranslate`:
parameters applied left to right in entry order. -/
def interpolateParams (s : String) (ps : List (String × ParamValue)) : String :=
  ps.foldl (fun str p => applyParam str p.1 p.2) s

/-- `key.split(".")` from the source, embedded directly so that it
computes by kernel reduction: split into the (possibly empty) runs of
characters between the dots; the empty string yields `[""]`, exactly as
in JS. -/
def splitOnDotAux : List Char → List Char → List String
  | [], acc => [String.mk acc.reverse]
  | c :: rest, acc =>
    if c = '.' then String.mk acc.reverse :: splitOnDotAux rest []
    else splitOnDotAux rest (c :: acc)

def splitOnDot (s : String) : List String :=
  splitOnDotAux s.toList []

/-- `getTranslate` (src/lib/i18n.ts:511-545): take the locale's tree (or
`{}` when the locale is absent), split the key on `.`, descend; if the
traversal fails or ends on a non-string, return the key unchanged;
otherwise interpolate the supplied parameters into the leaf. -/
def getTranslate (locale : String) (translations : Translations)
    (key : String) (params : Option (List (String × ParamValue))) : String :=
  let localeTranslations := (assocFind translations locale).getD (TranslationRecord.node [])
  match descend localeTranslations (splitOnDot key) with
  | some (TranslationRecord.leaf s) =>
    match params with
    | some ps => interpolateParams s ps
    | none => s
  | _ => key

/-- The configuration record (`I18nOptions`).  Optional fields are
`Option`; JS truthiness of a string option is `≠ some ""`. -/
structure I18nOptions where
  defaultLocale : Option String
  supportedLocales : Option (List String)
  loadPath : Option String
  fallbackLocale : Option String
  debug : Bool
  missingTranslationWarnings : Bool

/-- `getTranslateWithFallback` (src/lib/i18n.ts:548-571): translate with
the current locale; if the result equals the key (the miss marker) and a
truthy `fallbackLocale` different from `locale` is configured, translate
once more with the fallback locale; otherwise return the first result. -/
def getTranslateWithFallback (locale : String) (translations : Translations)
    (key : String) (params : Option (List (String × ParamValue)))
    (options : I18nOptions) : String :=
  let result := getTranslate locale translations key params
  match options.fallbackLocale with
  | some fl =>
    if result = key ∧ fl ≠ "" ∧ locale ≠ fl then
      getTranslate fl translations key params
    else result
  | none => result

/-- `getTranslateWithFallbackDebug` (src/lib/i18n.ts:574-618): same value
computation as `getTranslateWithFallback`; the `console.warn` /
`console.info` calls have no effect on the returned string and are not
part of the value-level embedding. -/
def getTranslateWithFallbackDebug (locale : String)
    (translations : Translations) (key : String)
    (params : Option (List (String × ParamValue)))
    (options : I18nOptions) : String :=
  let result := getTranslate locale translations key params
  match options.fallbackLocale with
  | some fl =>
    if result = key ∧ fl ≠ "" ∧ locale ≠ fl then
      let fallbackResult := getTranslate fl translations key params
      fallbackResult
    else result
  | none => result

/-- The behaviour of a registered loader, as fixed by the environment: its
promise either fulfils with a translation record or rejects. -/
inductive LoaderBehavior where
  | succeeds (tr : TranslationRecord)
  | fails

/-- The module-wide mutable state: the `_locale` store, the `translations`
store, the saved `globalI18nOptions`, and the `loaders` map. -/
structure I18nState where
  locale : String
  translations : Translations
  options : I18nOptions
  loaders : List (String × LoaderBehavior)

/-- The argument of `registerLocale`: a caller-supplied async loader,
direct in-memory data, or nothing (which registers the default
`loadPath`-fetch loader).  For the two loader forms the environment
supplies the eventual promise behaviour `b`. -/
inductive RegisterArg where
  | loader (b : LoaderBehavior)
  | data (tr : TranslationRecord)
  | fromLoadPath (b : LoaderBehavior)

/-- `registerLocale` (src/lib/i18n.ts:335-415): append the locale to
`supportedLocales` when absent (or create the list when the option is
undefined); then either register a loader or merge direct data into the
`translations` store via `setTranslations({...current, [locale]: data})`. -/
def registerLocale (st : I18nState) (locale : String) (arg : RegisterArg) :
    I18nState :=
  let newSupported :=
    match st.options.supportedLocales with
    | some ls => if ls.contains locale then some ls else some (ls ++ [locale])
    | none => some [locale]
  let st1 := { st with options := { st.options with supportedLocales := newSupported } }
  match arg with
  | RegisterArg.loader b => { st1 with loaders := setEntry st1.loaders locale b }
  | RegisterArg.data tr =>
    { st1 with translations := setEntry st1.translations locale tr }
  | RegisterArg.fromLoadPath b =>
    { st1 with loaders := setEntry st1.loaders locale b }

/-- `loadLocale` (src/lib/i18n.ts:418-452): no registered loader → resolve
with `undefined` and leave the state untouched; loader rejects → the error
is rethrown (rejected promise, state untouched); loader fulfils → merge
the data with `setTranslations({...current, [locale]: data})` and resolve
with it.  `Except.error` is the rejected promise. -/
def loadLocale (st : I18nState) (locale : String) :
    Except Unit (I18nState × Option TranslationRecord) :=
  match assocFind st.loaders locale with
  | none => Except.ok (st, none)
  | some (LoaderBehavior.succeeds tr) =>
    Except.ok ({ st with translations := setEntry st.translations locale tr }, some tr)
  | some LoaderBehavior.fails => Except.error ()

/-- `!options.supportedLocales?.includes(newLocale)` from `setLocale`:
when `supportedLocales` is undefined the optional chain yields `undefined`
(falsy), so the locale counts as unsupported. -/
def localeSupported (options : I18nOptions) (locale : String) : Bool :=
  match options.supportedLocales with
  | some ls => ls.contains locale
  | none => false

/-- `setLocale` (src/lib/i18n.ts:640-677): unsupported locale → warn (under
debug) and return, state untouched; translations already present → switch
the locale; otherwise await `loadLocale`, and on rejection catch the
error, log it under debug and return with the state untouched — the
rejection is not re-thrown, so `setLocale` itself always resolves
(`Except.ok` on every path).  The `localStorage` write is outside the
model. -/
def setLocale (st : I18nState) (newLocale : String) : Except Unit I18nState :=
  if localeSupported st.options newLocale then
    match assocFind st.translations newLocale with
    | some _ => Except.ok { st with locale := newLocale }
    | none =>
      match loadLocale st newLocale with
      | Except.error _ => Except.ok st
      | Except.ok (st', _) => Except.ok { st' with locale := newLocale }
  else Except.ok st

/-- Modelled from the spec: `waitUntilLoaded` (the package's `waitLocale`)
is absent from `src/` — only the README documents it.  Per §4.2/§7: it
resolves immediately, without invoking any loader, when the active
locale's tree is already present; otherwise it triggers a load attempt
whose completion the environment schedules (`LoadCompletion`), resolving
or rejecting with it, and rejects with a distinct timeout error when the
configured deadline (default 10 seconds) elapses first. -/
inductive LoadCompletion where
  | completesOk (atMs : Nat)
  | completesFail (atMs : Nat)
  | never

/-- Whether the triggered load completes (fulfils or rejects) within
`limit` milliseconds; a never-completing load completes within no
limit. -/
def LoadCompletion.completesWithin : LoadCompletion → Nat → Bool
  | LoadCompletion.completesOk t, limit => decide (t ≤ limit)
  | LoadCompletion.completesFail t, limit => decide (t ≤ limit)
  | LoadCompletion.never, _ => false

inductive WaitOutcome where
  | resolvedImmediately
  | resolvedAfterLoad
  | rejectedLoadFailure
  | rejectedTimeout
deriving DecidableEq

structure WaitResult where
  outcome : WaitOutcome
  loaderInvoked : Bool
deriving DecidableEq

def defaultWaitTimeoutMs : Nat := 10000

/-- Modelled from the spec: see `LoadCompletion`. -/
def waitUntilLoaded (st : I18nState) (timeoutMs : Nat) (env : LoadCompletion) :
    WaitResult :=
  if (assocFind st.translations st.locale).isSome then
    ⟨WaitOutcome.resolvedImmediately, false⟩
  else
    match env with
    | LoadCompletion.completesOk t =>
      if t ≤ timeoutMs then ⟨WaitOutcome.resolvedAfterLoad, true⟩
      else ⟨WaitOutcome.rejectedTimeout, true⟩
    | LoadCompletion.completesFail t =>
      if t ≤ timeoutMs then ⟨WaitOutcome.rejectedLoadFailure, true⟩
      else ⟨WaitOutcome.rejectedTimeout, true⟩
    | LoadCompletion.never => ⟨WaitOutcome.rejectedTimeout, true⟩

/-- Modelled from the spec: the two-key translation function returned by
the `t` store of the published module (`src/index.ts`, imported by
`tests/i18n.test.ts` but absent from `src/`; the `src/lib/i18n.ts`
versions present in the repository take no fallback key).  Its shape is
fixed by the repository's own tests: the primary key is resolved through
the locale-fallback chain `getTranslateWithFallback`, and only when that
whole chain misses is the fallback key resolved through the same chain
(`$t("app.title_missing", "common.ok")` must give the fallback locale's
`"Hello fallback"`, not the same-locale `"了解"`); when both chains miss,
the original key is returned (`$t("nothing.here", "nope.there")` gives
`"nothing.here"`). -/
def tWithFallbackKey (locale : String) (translations : Translations)
    (key : String) (fallbackKey : Option String)
    (params : Option (List (String × ParamValue)))
    (options : I18nOptions) : String :=
  let result := getTranslateWithFallback locale translations key params options
  if result ≠ key then result
  else
    match fallbackKey with
    | some fk =>
      let r2 := getTranslateWithFallback locale translations fk params options
      if r2 ≠ fk then r2 else key
    | none => result

/-- Modelled from the spec: the 4-tier chain exactly as §4.1 states it
(the precedence the claim asserts): (1) `translate(locale, key)`;
(2) if that failed and a fallback key is provided,
`translate(locale, fallbackKey)`; (3) if still failed and a fallback
locale different from `locale` is provided, `translate(fallbackLocale,
key)`; (4) if still failed and both are provided,
`translate(fallbackLocale, fallbackKey)`; (5) otherwise the original key.
"Failed" means the result equals the key that was looked up. -/
def translateWithFallbackSpecOrder (translations : Translations)
    (locale key : String) (fallbackKey fallbackLocale : Option String)
    (params : Option (List (String × ParamValue))) : String :=
  let r1 := getTranslate locale translations key params
  if r1 ≠ key then r1
  else
    let step2 : Option String :=
      match fallbackKey with
      | some fk =>
        let r2 := getTranslate locale translations fk params
        if r2 ≠ fk then some r2 else none
      | none => none
    match step2 with
    | some r => r
    | none =>
      let step3 : Option String :=
        match fallbackLocale with
        | some fl =>
          if fl ≠ locale then
            let r3 := getTranslate fl translations key params
            if r3 ≠ key then some r3 else none
          else none
        | none => none
      match step3 with
      | some r => r
      | none =>
        match fallbackKey, fallbackLocale with
        | some fk, some fl =>
          let r4 := getTranslate fl translations fk params
          if r4 ≠ fk then r4 else key
        | _, _ => key

/-- Claim-side helper: the first entry of `candidates` whose result
differs from the key that was looked up for it, or `orig` when every
lookup failed. -/
def firstHit : List (String × String) → String → String
  | [], orig => orig
  | (looked, res) :: rest, orig =>
    if res ≠ looked then res else firstHit rest orig

/-- The character-level half of the safe-fragment boundary: a character
with no special meaning in a JS regular expression.  A key of such
characters can still make the whole pattern `"{" + key + "}"` a braced
quantifier (digits and commas are individually plain), on which the
source's `RegExp` construction throws; `regexSafeKey` adds that
key-level exclusion. -/
def plainChar (c : Char) : Bool :=
  ['\\', '^', '$', '.', '|', '?', '*', '+', '(', ')', '[', ']', '{', '}'].all
    (fun d => c != d)

theorem compileChar_plain (c : Char) (h : plainChar c = true) :
    compileChar c = PatChar.lit c := by
  have hdot : c ≠ '.' := by
    intro he
    subst he
    exact absurd h (by decide)
  simp [compileChar, hdot]

/-- Whether `"{" + key + "}"` parses as a braced quantifier, i.e. `key`
is of the shape `DecimalDigits`, `DecimalDigits ,` or
`DecimalDigits , DecimalDigits`.  For such keys
`new RegExp("{" + key + "}", "g")` throws a SyntaxError (Annex B: an
`InvalidBracedQuantifier` with nothing to repeat) instead of treating the
braces literally. -/
def bracedQuantifierKey (key : String) : Bool :=
  match key.toList.takeWhile (fun c => c.isDigit),
      key.toList.dropWhile (fun c => c.isDigit) with
  | [], _ => false
  | _ :: _, [] => true
  | _ :: _, ',' :: rest2 => rest2.all (fun c => c.isDigit)
  | _, _ => false

/-- The key-level safe-fragment boundary for interpolation: every
character is regex-plain AND the braced key is not a quantifier, so the
source's `new RegExp` neither throws nor interprets any character. -/
def regexSafeKey (key : String) : Bool :=
  key.toList.all plainChar && ! bracedQuantifierKey key

/-- The replacement step of the source including its error path:
`new RegExp("{" + paramKey + "}", "g")` throws a SyntaxError
(`Except.error`) when the braced key is a quantifier, and otherwise the
replacement proceeds as `applyParam`.  (Keys containing other regex
metacharacters are outside the modelled fragment, as documented at
`PatChar`.) -/
def applyParamChecked (str : String) (paramKey : String) (v : ParamValue) :
    Except Unit String :=
  if bracedQuantifierKey paramKey then Except.error ()
  else Except.ok (applyParam str paramKey v)

/-- The `Object.entries(params).reduce(...)` fold with the SyntaxError
path made explicit: the first parameter whose braced key is a quantifier
aborts the whole interpolation (and hence the `getTranslate` call) with
the exception. -/
def interpolateParamsChecked : String → List (String × ParamValue) →
    Except Unit String
  | s, [] => Except.ok s
  | s, p :: rest =>
    match applyParamChecked s p.1 p.2 with
    | Except.error e => Except.error e
    | Except.ok s' => interpolateParamsChecked s' rest

theorem regexSafeKey_plain {k : String} (h : regexSafeKey k = true) :
    ∀ c ∈ k.toList, plainChar c = true := by
  unfold regexSafeKey at h
  have := (Bool.and_eq_true _ _).mp h
  exact fun c hc => List.all_eq_true.mp this.1 c hc

theorem regexSafeKey_no_quantifier {k : String} (h : regexSafeKey k = true) :
    bracedQuantifierKey k = false := by
  unfold regexSafeKey at h
  have h2 := ((Bool.and_eq_true _ _).mp h).2
  rw [Bool.not_eq_true'] at h2
  exact h2

/-- Claim-side definition, following the claim's words: replace every
literal occurrence of the text `{paramKey}` in `s` by `repl`, scanning
left to right over non-overlapping occurrences, both pattern and
replacement treated as plain text. -/
def replaceAllLitF (p0 : Char) (ps : List Char) (repl : List Char) :
    Nat → List Char → List Char
  | _, [] => []
  | 0, s => s
  | fuel + 1, c :: cs =>
    if p0 = c ∧ ps.isPrefixOf cs then
      repl ++ replaceAllLitF p0 ps repl fuel (cs.drop ps.length)
    else c :: replaceAllLitF p0 ps repl fuel cs

/-- Claim-side literal global replacement: see `replaceAllLitF`; fuel
`s.length` suffices as each step consumes at least one character. -/
def replaceAllLit (p0 : Char) (ps : List Char) (repl : List Char)
    (s : List Char) : List Char :=
  replaceAllLitF p0 ps repl s.length s

/-- Claim-side definition on strings: literal global replacement of
`"\x7b" ++ paramKey ++ "\x7d"` (the placeholder as plain text). -/
def literalReplaceAllKey (s paramKey repl : String) : String :=
  String.mk (replaceAllLit '{' (paramKey.toList ++ ['}']) repl.toList s.toList)

theorem matchPrefix_map_lit (l : List Char) : ∀ cs : List Char,
    matchPrefix (l.map PatChar.lit) cs =
      if l.isPrefixOf cs then some (l, cs.drop l.length) else none := by
  induction l with
  | nil => intro cs; simp [matchPrefix]
  | cons a l ih =>
    intro cs
    cases cs with
    | nil => simp [matchPrefix]
    | cons c cs =>
      simp only [List.map_cons, matchPrefix, patCharMatches, ih cs,
        List.isPrefixOf_cons₂]
      by_cases hac : a = c
      · subst hac
        by_cases hp : l.isPrefixOf cs <;> simp [hp]
      · have hb : (a == c) = false := beq_eq_false_iff_ne.mpr hac
        simp [hb]

theorem expandRepl_no_dollar (m : List Char) (l : List Char)
    (h : '$' ∉ l) : expandRepl m l = l := by
  have main : ∀ n : Nat, ∀ l : List Char, l.length ≤ n → '$' ∉ l →
      expandRepl m l = l := by
    intro n
    induction n with
    | zero =>
      intro l hl _
      have : l = [] := List.eq_nil_of_length_eq_zero (Nat.le_zero.mp hl)
      subst this
      rfl
    | succ n ih =>
      intro l hl hno
      rcases l with _ | ⟨c, _ | ⟨d, rest⟩⟩
      · rfl
      · rfl
      · have hc : c ≠ '$' := fun he => hno (he ▸ List.mem_cons_self c _)
        have htail : '$' ∉ d :: rest := fun hm => hno (List.mem_cons_of_mem _ hm)
        have hlen : (d :: rest).length ≤ n := by
          simp only [List.length_cons] at hl ⊢
          omega
        rw [expandRepl, if_neg hc, ih (d :: rest) hlen htail]
  exact main l.length l (Nat.le_refl _) h

theorem replaceAllRxF_lit_eq (c0 : Char) (l repl : List Char)
    (hr : '$' ∉ repl) : ∀ fuel : Nat, ∀ s : List Char,
    replaceAllRxF (PatChar.lit c0) (l.map PatChar.lit) repl fuel s =
      replaceAllLitF c0 l repl fuel s := by
  intro fuel
  induction fuel with
  | zero => intro s; cases s <;> rfl
  | succ n ih =>
    intro s
    cases s with
    | nil => rfl
    | cons c cs =>
      have hmp : matchPrefix (PatChar.lit c0 :: l.map PatChar.lit) (c :: cs)
          = if (c0 :: l).isPrefixOf (c :: cs) then
              some (c0 :: l, (c :: cs).drop (c0 :: l).length) else none := by
        simpa using matchPrefix_map_lit (c0 :: l) (c :: cs)
      rw [replaceAllRxF, replaceAllLitF, hmp]
      by_cases hpre : (c0 :: l).isPrefixOf (c :: cs)
      · rw [if_pos hpre]
        have hsplit : (c0 == c && l.isPrefixOf cs) = true := by
          simpa [List.isPrefixOf_cons₂] using hpre
        have hc0 : c0 = c := by
          have := (Bool.and_eq_true _ _).mp hsplit
          exact eq_of_beq this.1
        have hlpre : l.isPrefixOf cs := ((Bool.and_eq_true _ _).mp hsplit).2
        rw [if_pos ⟨hc0, hlpre⟩]
        simp only [List.length_map]
        rw [expandRepl_no_dollar (c0 :: l) repl hr]
        rw [ih (cs.drop l.length)]
      · rw [if_neg hpre]
        have hneg : ¬ (c0 = c ∧ l.isPrefixOf cs) := by
          intro hcon
          exact hpre (by simp [List.isPrefixOf_cons₂, hcon.1, hcon.2])
        rw [if_neg hneg]
        simp only []
        rw [ih cs]

theorem replaceAllRx_lit_eq (c0 : Char) (l repl : List Char)
    (hr : '$' ∉ repl) (s : List Char) :
    replaceAllRx (PatChar.lit c0) (l.map PatChar.lit) repl s =
      replaceAllLit c0 l repl s :=
  replaceAllRxF_lit_eq c0 l repl hr s.length s

theorem applyParam_plain (s k : String) (v : ParamValue)
    (hk : ∀ c ∈ k.toList, plainChar c = true)
    (hv : '$' ∉ v.render.toList) :
    applyParam s k v = literalReplaceAllKey s k v.render := by
  unfold applyParam literalReplaceAllKey
  congr 1
  have hmap : k.toList.map compileChar = k.toList.map PatChar.lit :=
    List.map_congr_left (fun c hc => compileChar_plain c (hk c hc))
  rw [hmap]
  have hjoin : k.toList.map PatChar.lit ++ [PatChar.lit '}']
      = (k.toList ++ ['}']).map PatChar.lit := by simp
  rw [hjoin]
  exact replaceAllRx_lit_eq '{' (k.toList ++ ['}']) v.render.toList hv s.toList

/-- Claim-side predicate, following the claim's words: the dot-path,
descending one segment at a time by exact case-sensitive string match,
exists in the tree and terminates in a string leaf holding `s`. -/
inductive PathResolves : TranslationRecord → List String → String → Prop where
  | done (s : String) : PathResolves (TranslationRecord.leaf s) [] s
  | step {cs : List (String × TranslationRecord)} {k : String}
      {ks : List String} {t : TranslationRecord} {s : String} :
      assocFind cs k = some t → PathResolves t ks s →
      PathResolves (TranslationRecord.node cs) (k :: ks) s

theorem pathResolves_iff (t : TranslationRecord) (segs : List String)
    (s : String) :
    PathResolves t segs s ↔ descend t segs = some (TranslationRecord.leaf s) := by
  constructor
  · intro h
    induction h with
    | done s => rfl
    | step hfind _ ih => simp [descend, hfind, ih]
  · intro h
    induction segs generalizing t with
    | nil =>
      simp [descend] at h
      subst h
      exact PathResolves.done s
    | cons k ks ih =>
      cases t with
      | leaf s' => simp [descend] at h
      | node cs =>
        simp only [descend] at h
        cases hfind : assocFind cs k with
        | none => rw [hfind] at h; simp at h
        | some t' =>
          rw [hfind] at h
          exact PathResolves.step hfind (ih t' h)

/-- C2: for every translation tree and dot-delimited key whose path,
descending one segment at a time by exact case-sensitive match, exists in
the tree and terminates in a string leaf, `getTranslate` with no params
returns exactly that leaf string. -/
theorem C2_resolved_leaf_returned (locale : String)
    (translations : Translations) (key s : String)
    (h : PathResolves ((assocFind translations locale).getD
      (TranslationRecord.node [])) (splitOnDot key) s) :
    getTranslate locale translations key none = s := by
  have hd := (pathResolves_iff _ _ _).mp h
  simp [getTranslate, hd]

theorem C2_resolved_leaf_returned_witness :
    getTranslate "ja"
      [("ja", TranslationRecord.node
        [("app", TranslationRecord.node
          [("title", TranslationRecord.leaf "Konnichiwa")])])]
      "app.title" none = "Konnichiwa" :=
  C2_resolved_leaf_returned _ _ _ _ ((pathResolves_iff _ _ _).mpr rfl)

/-- C3: whenever the key's path does not fully resolve to a string leaf
(a segment missing, an intermediate node not a container, or the final
node not a string — including a missing locale, whose tree defaults to
`{}`), `getTranslate` returns the key itself unchanged.  `getTranslate`
is a total function in this embedding, which is the shallow form of
"never throws for a missing key or missing locale": the only exception
source in the body, `new RegExp`, is reached only after a leaf is
found. -/
theorem C3_unresolved_key_returned (locale : String)
    (translations : Translations) (key : String)
    (params : Option (List (String × ParamValue)))
    (h : ∀ s, ¬ PathResolves ((assocFind translations locale).getD
      (TranslationRecord.node [])) (splitOnDot key) s) :
    getTranslate locale translations key params = key := by
  unfold getTranslate
  cases hd : descend ((assocFind translations locale).getD
      (TranslationRecord.node [])) (splitOnDot key) with
  | none => simp only [hd]
  | some t =>
    cases t with
    | leaf s => exact absurd ((pathResolves_iff _ _ _).mpr hd) (h s)
    | node cs => simp only [hd]

theorem C3_unresolved_key_returned_witness :
    getTranslate "ja" [] "app.title" none = "app.title" :=
  C3_unresolved_key_returned _ _ _ _ (fun s h => by
    cases h with
    | step hfind _ => simp [assocFind] at hfind)

/-- C7: the debug-diagnostic resolution path returns the same string as
the non-debug path for every locale, dataset, key, params and
configuration: enabling warn-on-missing diagnostics never alters the
returned value. -/
theorem C7_debug_equals_nondebug (locale : String)
    (translations : Translations) (key : String)
    (params : Option (List (String × ParamValue)))
    (options : I18nOptions) :
    getTranslateWithFallbackDebug locale translations key params options =
      getTranslateWithFallback locale translations key params options := rfl

/-- C4, counterexample: the source builds the replacement pattern as a
regular expression from the raw parameter key, so the placeholder is NOT
treated as plain text.  With parameter key `a.b` the compiled regex
`.`-wildcard makes the template `"\x7baxb\x7d"` (which contains no
literal occurrence of the text `"\x7ba.b\x7d"`) match, and the code
substitutes the value, while the claim's literal plain-text replacement
leaves the template unchanged. -/
theorem C4_placeholder_not_plain_text :
    interpolateParams "{axb}" [("a.b", ParamValue.str "V")] = "V" ∧
      literalReplaceAllKey "{axb}" "a.b" "V" = "{axb}" := by
  constructor
  · rfl
  · rfl

/-- C4, amended: restricted to `regexSafeKey` parameter keys — every
character regex-plain AND the braced key not a quantifier (for
quantifier-shaped keys such as `"2"` the source's `new RegExp` throws a
SyntaxError instead of replacing anything) — and to rendered values
containing no `$` (the replacement-string escape character),
interpolation throws nothing (`interpolateParamsChecked` returns
`Except.ok`) and is exactly the claim's behaviour: for each supplied
pair, in entry order, every literal occurrence of `\x7bparamKey\x7d` is
replaced by the value's string representation, both treated as plain
text. -/
theorem C4_interpolation_amended (template : String)
    (ps : List (String × ParamValue))
    (hk : ∀ p ∈ ps, regexSafeKey p.1 = true)
    (hv : ∀ p ∈ ps, '$' ∉ p.2.render.toList) :
    interpolateParamsChecked template ps
      = Except.ok (interpolateParams template ps) ∧
    interpolateParams template ps =
      ps.foldl (fun s p => literalReplaceAllKey s p.1 p.2.render) template := by
  induction ps generalizing template with
  | nil => exact ⟨rfl, rfl⟩
  | cons p rest ih =>
    have hks := hk p (List.mem_cons_self p rest)
    have hnq : bracedQuantifierKey p.1 = false := regexSafeKey_no_quantifier hks
    have hhead : applyParam template p.1 p.2
        = literalReplaceAllKey template p.1 p.2.render :=
      applyParam_plain template p.1 p.2 (regexSafeKey_plain hks)
        (hv p (List.mem_cons_self p rest))
    have hstep : applyParamChecked template p.1 p.2
        = Except.ok (applyParam template p.1 p.2) := by
      unfold applyParamChecked
      rw [hnq]
      rfl
    obtain ⟨ih1, ih2⟩ := ih (applyParam template p.1 p.2)
      (fun q hq => hk q (List.mem_cons_of_mem p hq))
      (fun q hq => hv q (List.mem_cons_of_mem p hq))
    constructor
    · simp only [interpolateParamsChecked]
      rw [hstep]
      simp only [interpolateParams, List.foldl_cons] at ih1 ⊢
      exact ih1
    · simp only [interpolateParams, List.foldl_cons] at ih2 ⊢
      rw [← hhead]
      exact ih2

theorem C4_interpolation_amended_witness :
    (interpolateParamsChecked "Hello, {name}" [("name", ParamValue.str "Jason")]
      = Except.ok (interpolateParams "Hello, {name}"
          [("name", ParamValue.str "Jason")])) ∧
    interpolateParams "Hello, {name}" [("name", ParamValue.str "Jason")] =
      [("name", ParamValue.str "Jason")].foldl
        (fun s p => literalReplaceAllKey s p.1 p.2.render) "Hello, {name}" :=
  C4_interpolation_amended _ _ (by decide) (by decide)

/-- C10: missing-translation detection in the fallback path is by string
equality with the looked-up key.  When the locale's tree does contain a
string leaf at the key but its post-interpolation value equals the key
string itself, `getTranslateWithFallback` treats the lookup as failed and
returns the fallback locale's translation (which, in turn, is the key if
that lookup fails too). -/
theorem C10_self_named_leaf_treated_missing (locale : String)
    (translations : Translations) (key v : String)
    (params : Option (List (String × ParamValue))) (options : I18nOptions)
    (fl : String)
    (_hleaf : descend ((assocFind translations locale).getD
      (TranslationRecord.node [])) (splitOnDot key)
      = some (TranslationRecord.leaf v))
    (hself : getTranslate locale translations key params = key)
    (hfl : options.fallbackLocale = some fl)
    (hne : fl ≠ "") (hll : locale ≠ fl) :
    getTranslateWithFallback locale translations key params options =
      getTranslate fl translations key params := by
  simp only [getTranslateWithFallback, hfl]
  rw [if_pos ⟨hself, hne, hll⟩]

theorem C10_self_named_leaf_treated_missing_witness :
    getTranslateWithFallback "ja"
      [("ja", TranslationRecord.node
        [("a", TranslationRecord.node [("b", TranslationRecord.leaf "a.b")])]),
       ("en", TranslationRecord.node
        [("a", TranslationRecord.node [("b", TranslationRecord.leaf "X")])])]
      "a.b" none
      { defaultLocale := some "ja", supportedLocales := some ["ja", "en"],
        loadPath := none, fallbackLocale := some "en", debug := false,
        missingTranslationWarnings := false } =
      getTranslate "en"
        [("ja", TranslationRecord.node
          [("a", TranslationRecord.node [("b", TranslationRecord.leaf "a.b")])]),
         ("en", TranslationRecord.node
          [("a", TranslationRecord.node [("b", TranslationRecord.leaf "X")])])]
        "a.b" none :=
  C10_self_named_leaf_treated_missing _ _ _ _ _ _ _ rfl rfl rfl
    (by decide) (by decide)


theorem assocFind_setEntry_ne {α : Type} (m : List (String × α))
    (k k' : String) (v : α) (h : k' ≠ k) :
    assocFind (setEntry m k v) k' = assocFind m k' := by
  induction m with
  | nil =>
    simp only [setEntry, assocFind]
    rw [if_neg (Ne.symm h)]
  | cons p rest ih =>
    obtain ⟨pk, pv⟩ := p
    by_cases hpk : pk = k
    · subst hpk
      have hne : ¬ (pk = k') := fun he => h he.symm
      simp only [setEntry, if_pos rfl, assocFind]
      rw [if_neg hne, if_neg hne]
    · simp only [setEntry, if_neg hpk, assocFind]
      by_cases hpk' : pk = k'
      · rw [if_pos hpk', if_pos hpk']
      · rw [if_neg hpk', if_neg hpk', ih]

theorem assocFind_setEntry_self {α : Type} (m : List (String × α))
    (k : String) (v : α) :
    assocFind (setEntry m k v) k = some v := by
  induction m with
  | nil => simp [setEntry, assocFind]
  | cons p rest ih =>
    obtain ⟨pk, pv⟩ := p
    by_cases hpk : pk = k
    · subst hpk
      simp [setEntry, assocFind]
    · simp [setEntry, hpk, assocFind, ih]

/-- A small concrete configuration used by witnesses: default locale
`"ja"`, supported locales `["ja", "en"]`, no fallback locale. -/
def optsJaEn : I18nOptions :=
  { defaultLocale := some "ja", supportedLocales := some ["ja", "en"],
    loadPath := none, fallbackLocale := none, debug := false,
    missingTranslationWarnings := false }

/-- C5: `setLocale` with a locale outside `supportedLocales` (including
the case of an undefined list, falsy under the optional chain) returns
early: the whole state — in particular the observable current locale —
is unchanged, and the returned promise resolves (no exception; the
optional `console.warn` under debug has no state effect). -/
theorem C5_unsupported_locale_noop (st : I18nState) (newLocale : String)
    (h : localeSupported st.options newLocale = false) :
    setLocale st newLocale = Except.ok st := by
  unfold setLocale
  rw [h]
  simp

/-- A concrete state for the C5 witness. -/
def c5State : I18nState :=
  { locale := "ja", translations := [], options := optsJaEn, loaders := [] }

theorem C5_unsupported_locale_noop_witness :
    localeSupported c5State.options "fr" = false ∧
      setLocale c5State "fr" = Except.ok c5State :=
  ⟨by decide, C5_unsupported_locale_noop c5State "fr" (by decide)⟩

/-- A state with a supported, not-yet-loaded locale `"en"` whose
registered loader rejects: used by the C6 counterexample and witness. -/
def failingLoadState : I18nState :=
  { locale := "ja", translations := [], options := optsJaEn,
    loaders := [("en", LoaderBehavior.fails)] }

/-- C6, counterexample: a supported locale whose translations are not yet
loaded and whose registered loader rejects.  `loadLocale` itself rejects
(`Except.error`), but `setLocale` catches the rejection
(src/lib/i18n.ts:658-663: `catch ... return;`) and RESOLVES normally with
the state unchanged — the failure is not surfaced to the caller of
`setLocale` as a rejected operation, contradicting the claim. -/
theorem C6_load_failure_not_rejected :
    assocFind failingLoadState.loaders "en" = some LoaderBehavior.fails ∧
      assocFind failingLoadState.translations "en" = none ∧
      loadLocale failingLoadState "en" = Except.error () ∧
      setLocale failingLoadState "en" = Except.ok failingLoadState := by
  have h1 : assocFind failingLoadState.loaders "en"
      = some LoaderBehavior.fails := rfl
  have h2 : assocFind failingLoadState.translations "en" = none := rfl
  have h3 : loadLocale failingLoadState "en" = Except.error () := rfl
  have h4 : setLocale failingLoadState "en" = Except.ok failingLoadState := rfl
  exact ⟨h1, h2, h3, h4⟩

/-- C6, amended: when a supported, not-yet-loaded locale's loader fails,
`setLocale` does not switch the current locale and the dataset is left
unmodified for that locale (the whole state is returned unchanged), and
the failure is surfaced as a rejected operation by `loadLocale` — but
`setLocale` itself catches the rejection and resolves normally, surfacing
it at most as a debug log, not as a rejection. -/
theorem C6_load_failure_amended (st : I18nState) (newLocale : String)
    (hs : localeSupported st.options newLocale = true)
    (hnl : assocFind st.translations newLocale = none)
    (hf : assocFind st.loaders newLocale = some LoaderBehavior.fails) :
    setLocale st newLocale = Except.ok st ∧
      loadLocale st newLocale = Except.error () := by
  have hload : loadLocale st newLocale = Except.error () := by
    unfold loadLocale
    rw [hf]
  refine ⟨?_, hload⟩
  unfold setLocale
  rw [hs, hnl, hload]
  simp

theorem C6_load_failure_amended_witness :
    localeSupported failingLoadState.options "en" = true ∧
      (setLocale failingLoadState "en" = Except.ok failingLoadState ∧
        loadLocale failingLoadState "en" = Except.error ()) :=
  ⟨by decide, C6_load_failure_amended failingLoadState "en" (by decide) rfl rfl⟩

/-- C8: merging one locale's data into the dataset — `loadLocale` after a
successful load, and `registerLocale` with direct data — updates only the
entry for that locale: every other locale's tree is unchanged, the merged
locale maps to the new tree, and the merge is the single whole-mapping
assignment `setTranslations({...current, [locale]: data})` (`setEntry`
is that one assignment in this embedding, applied exactly once). -/
theorem C8_merge_frame (st : I18nState) (l l' : String)
    (tr tr2 : TranslationRecord)
    (hl : assocFind st.loaders l = some (LoaderBehavior.succeeds tr))
    (hne : l' ≠ l) :
    loadLocale st l = Except.ok
      ({ st with translations := setEntry st.translations l tr }, some tr) ∧
    assocFind (setEntry st.translations l tr) l' = assocFind st.translations l' ∧
    assocFind (setEntry st.translations l tr) l = some tr ∧
    assocFind (registerLocale st l (RegisterArg.data tr2)).translations l'
      = assocFind st.translations l' ∧
    assocFind (registerLocale st l (RegisterArg.data tr2)).translations l
      = some tr2 := by
  have hreg : (registerLocale st l (RegisterArg.data tr2)).translations
      = setEntry st.translations l tr2 := by
    unfold registerLocale
    cases st.options.supportedLocales <;> simp
  refine ⟨?_, assocFind_setEntry_ne _ _ _ _ hne,
    assocFind_setEntry_self _ _ _, ?_, ?_⟩
  · unfold loadLocale
    rw [hl]
  · rw [hreg]
    exact assocFind_setEntry_ne _ _ _ _ hne
  · rw [hreg]
    exact assocFind_setEntry_self _ _ _

/-- A concrete state for the C8 witness: `"ja"` already loaded, a loader
for `"en"` that succeeds with the empty record. -/
def c8State : I18nState :=
  { locale := "ja", translations := [("ja", TranslationRecord.leaf "x")],
    options := optsJaEn,
    loaders := [("en", LoaderBehavior.succeeds (TranslationRecord.node []))] }

theorem C8_merge_frame_witness :
    loadLocale c8State "en" = Except.ok ({ c8State with translations := setEntry c8State.translations "en" (TranslationRecord.node []) }, some (TranslationRecord.node [])) ∧
    assocFind (setEntry c8State.translations "en" (TranslationRecord.node []))
      "ja" = assocFind c8State.translations "ja" ∧
    assocFind (setEntry c8State.translations "en" (TranslationRecord.node []))
      "en" = some (TranslationRecord.node []) ∧
    assocFind (registerLocale c8State "en"
      (RegisterArg.data (TranslationRecord.leaf "y"))).translations "ja"
      = assocFind c8State.translations "ja" ∧
    assocFind (registerLocale c8State "en"
      (RegisterArg.data (TranslationRecord.leaf "y"))).translations "en"
      = some (TranslationRecord.leaf "y") :=
  C8_merge_frame c8State "en" "ja" (TranslationRecord.node [])
    (TranslationRecord.leaf "y") rfl (by decide)

/-- C9: when the active locale's tree is already present in the dataset,
`waitUntilLoaded` resolves immediately without invoking any loader;
otherwise it triggers a load attempt, and whenever the configured
timeout (default 10000 ms) elapses before the load completes — the load
succeeds late, fails late, or never completes at all — it rejects with a
timeout error distinguishable from a load failure. -/
theorem C9_waitUntilLoaded_behaviour (st : I18nState) (timeoutMs : Nat)
    (env : LoadCompletion) :
    ((assocFind st.translations st.locale).isSome = true →
      waitUntilLoaded st timeoutMs env
        = ⟨WaitOutcome.resolvedImmediately, false⟩) ∧
    (assocFind st.translations st.locale = none →
      (waitUntilLoaded st timeoutMs env).loaderInvoked = true) ∧
    (assocFind st.translations st.locale = none →
      (env.completesWithin timeoutMs = false →
        (waitUntilLoaded st timeoutMs env).outcome
          = WaitOutcome.rejectedTimeout) ∧
      WaitOutcome.rejectedTimeout ≠ WaitOutcome.rejectedLoadFailure ∧
      defaultWaitTimeoutMs = 10000) := by
  refine ⟨?_, ?_, ?_⟩
  · intro h
    unfold waitUntilLoaded
    rw [if_pos h]
  · intro h
    have hns : (assocFind st.translations st.locale).isSome = false := by
      rw [h]; rfl
    unfold waitUntilLoaded
    rw [hns]
    cases env with
    | completesOk t => by_cases ht : t ≤ timeoutMs <;> simp [ht]
    | completesFail t => by_cases ht : t ≤ timeoutMs <;> simp [ht]
    | never => simp
  · intro h
    have hns : (assocFind st.translations st.locale).isSome = false := by
      rw [h]; rfl
    refine ⟨?_, by decide, rfl⟩
    intro hcw
    cases env with
    | completesOk t =>
      have ht : ¬ (t ≤ timeoutMs) := by
        simpa [LoadCompletion.completesWithin] using hcw
      unfold waitUntilLoaded
      rw [hns]
      simp [ht]
    | completesFail t =>
      have ht : ¬ (t ≤ timeoutMs) := by
        simpa [LoadCompletion.completesWithin] using hcw
      unfold waitUntilLoaded
      rw [hns]
      simp [ht]
    | never =>
      unfold waitUntilLoaded
      rw [hns]
      simp

theorem C9_waitUntilLoaded_behaviour_witness :
    (assocFind c8State.translations c8State.locale).isSome = true ∧
      waitUntilLoaded c8State defaultWaitTimeoutMs LoadCompletion.never
        = ⟨WaitOutcome.resolvedImmediately, false⟩ :=
  ⟨rfl, (C9_waitUntilLoaded_behaviour c8State defaultWaitTimeoutMs
    LoadCompletion.never).1 rfl⟩

/-- The mock dataset of the repository's test suite
(`tests/i18n.test.ts`, lines 14-34), embedded verbatim. -/
def testTranslations : Translations :=
  [("ja", TranslationRecord.node
      [("app", TranslationRecord.node
          [("title", TranslationRecord.leaf "こんにちは"),
           ("welcome", TranslationRecord.leaf "ようこそ、{name}さん")]),
       ("common", TranslationRecord.node
          [("ok", TranslationRecord.leaf "了解"),
           ("greet", TranslationRecord.leaf "Hello, {name}")])]),
   ("en", TranslationRecord.node
      [("app", TranslationRecord.node
          [("title", TranslationRecord.leaf "Hello"),
           ("title_missing", TranslationRecord.leaf "Hello fallback")]),
       ("common", TranslationRecord.node
          [("ok", TranslationRecord.leaf "OK")])])]

/-- The options the test suite runs under (`tests/i18n.test.ts`,
lines 36-42): fallback locale `"en"`, debug and warnings on. -/
def testOptions : I18nOptions :=
  { defaultLocale := some "ja", supportedLocales := some ["ja", "en"],
    loadPath := none, fallbackLocale := some "en", debug := true,
    missingTranslationWarnings := true }

/-- C1, counterexample: the claim's strict 4-tier order (same-locale
fallback key before any cross-locale lookup) contradicts the behaviour
the repository's own test suite pins for the two-key `t` function.  On
the test dataset, with locale `"ja"`, key `"app.title_missing"` (present
only in `"en"`), fallback key `"common.ok"` (present in `"ja"` as
`"了解"`) and fallback locale `"en"`: the claimed order yields the
same-locale fallback-key translation `"了解"`, while the test
`t() は fallback ロケールも試みる` requires `"Hello fallback"` — the
fallback locale's translation for the primary key — which is what the
reconstructed implementation returns. -/
theorem C1_spec_order_contradicts_tests :
    translateWithFallbackSpecOrder testTranslations "ja" "app.title_missing"
      (some "common.ok") (some "en") none = "了解" ∧
    tWithFallbackKey "ja" testTranslations "app.title_missing"
      (some "common.ok") none testOptions = "Hello fallback" ∧
    ("了解" : String) ≠ "Hello fallback" :=
  ⟨rfl, rfl, by decide⟩

/-- C1, amended: the fallback-aware translation follows the strict
precedence primary(locale, key) > primary(fallbackLocale, key) >
primary(locale, fallbackKey) > primary(fallbackLocale, fallbackKey) —
the cross-locale lookup for the primary key is tried BEFORE the
same-locale fallback key — returning the first successful result
(`firstHit`: first candidate differing from the key looked up for it)
and the original key only if all four fail; with no fallback key, only
the first two tiers apply. -/
theorem C1_fallback_precedence_amended (translations : Translations)
    (locale key fk fl : String)
    (params : Option (List (String × ParamValue))) (options : I18nOptions)
    (hfl : options.fallbackLocale = some fl) (hne : fl ≠ "")
    (hll : locale ≠ fl) :
    tWithFallbackKey locale translations key (some fk) params options =
      firstHit [(key, getTranslate locale translations key params),
                (key, getTranslate fl translations key params),
                (fk, getTranslate locale translations fk params),
                (fk, getTranslate fl translations fk params)] key ∧
    tWithFallbackKey locale translations key none params options =
      firstHit [(key, getTranslate locale translations key params),
                (key, getTranslate fl translations key params)] key := by
  constructor
  · by_cases h1 : getTranslate locale translations key params = key
    · by_cases h2 : getTranslate fl translations key params = key
      · by_cases h3 : getTranslate locale translations fk params = fk
        · by_cases h4 : getTranslate fl translations fk params = fk
          · simp [tWithFallbackKey, getTranslateWithFallback, firstHit,
              hfl, h1, h2, h3, h4, hne, hll]
          · simp [tWithFallbackKey, getTranslateWithFallback, firstHit,
              hfl, h1, h2, h3, h4, hne, hll]
        · simp [tWithFallbackKey, getTranslateWithFallback, firstHit,
            hfl, h1, h2, h3, hne, hll]
      · simp [tWithFallbackKey, getTranslateWithFallback, firstHit,
          hfl, h1, h2, hne, hll]
    · simp [tWithFallbackKey, getTranslateWithFallback, firstHit,
        hfl, h1, hne, hll]
  · by_cases h1 : getTranslate locale translations key params = key
    · by_cases h2 : getTranslate fl translations key params = key
      · simp [tWithFallbackKey, getTranslateWithFallback, firstHit,
          hfl, h1, h2, hne, hll]
      · simp [tWithFallbackKey, getTranslateWithFallback, firstHit,
          hfl, h1, h2, hne, hll]
    · simp [tWithFallbackKey, getTranslateWithFallback, firstHit,
        hfl, h1, hne, hll]

theorem C1_fallback_precedence_amended_witness :
    tWithFallbackKey "ja" testTranslations "app.title_missing"
      (some "common.ok") none testOptions =
      firstHit
        [("app.title_missing",
           getTranslate "ja" testTranslations "app.title_missing" none),
         ("app.title_missing",
           getTranslate "en" testTranslations "app.title_missing" none),
         ("common.ok", getTranslate "ja" testTranslations "common.ok" none),
         ("common.ok", getTranslate "en" testTranslations "common.ok" none)]
        "app.title_missing" ∧
    tWithFallbackKey "ja" testTranslations "app.title_missing"
      none none testOptions =
      firstHit
        [("app.title_missing",
           getTranslate "ja" testTranslations "app.title_missing" none),
         ("app.title_missing",
           getTranslate "en" testTranslations "app.title_missing" none)]
        "app.title_missing" :=
  C1_fallback_precedence_amended testTranslations "ja" "app.title_missing"
    "common.ok" "en" none testOptions rfl (by decide) (by decide)
